import Mathlib

/-!
Shallow embedding of the Maryland transform module
(`openelex/us/md/transform/__init__.py`) of openelections-core.

Conventions of the embedding:

* Python strings are `String`; a "falsy" string field is the empty string.
* The MongoDB collections behind `Contest.objects`, `Candidate.objects`
  and `Result.objects` are lists of rows; `objects.get(**query)` is
  modelled as "the unique element of the list matching the query,
  otherwise failure" and failure (`DoesNotExist`, or `ValueError` in the
  era dispatch) is `Option.none`, which aborts the surrounding pass.
* An `Office` row is resolved by `Office.objects.get` from the query
  built in `_get_office`; since the query determines the row (the code
  even asserts `key == office.key`), the office's identity is modelled
  by the query itself (`OfficeQuery`).  Likewise a `Party` row is
  identified by its canonical abbreviation.
* A dict from which a key may be deleted (`primary_type` of a contest,
  the name parts of a 2002 candidate) becomes a structure whose field is
  an `Option`, `none` meaning "key absent"; a Mongo query on such a
  structure constrains a field only when the query carries it.
* The `nameparser.HumanName` collaborator is external to this
  repository; it is modelled as an arbitrary parsing function passed as
  a parameter (`parse : String → HName`).
* `datetime.now()` timestamps are modelled by a single clock value
  passed to a pass.
-/

namespace MDXform

/-- A calendar date (the embedding only needs year/month/day). -/
structure Date where
  year : Nat
  month : Nat
  day : Nat
deriving DecidableEq

/-- `d ≤ e` on dates, lexicographically, as the datetime comparison. -/
def Date.leB (d e : Date) : Bool :=
  decide (d.year < e.year) ||
    (decide (d.year = e.year) &&
      (decide (d.month < e.month) ||
        (decide (d.month = e.month) && decide (d.day ≤ e.day))))

/-- The raw `winner` column is dynamically typed in the source data:
`"Y"` after 2002, the integer `1` in 2002. -/
inductive PyVal where
  | s (v : String)
  | i (n : Int)
deriving DecidableEq

/-- A raw result row, with the fields the transform module reads. -/
structure RawResult where
  source : String
  election_id : String
  state : String
  start_date : Date
  end_date : Date
  election_type : String
  primary_type : String
  result_type : String
  special : Bool
  office : String
  district : String
  contest_slug : String
  candidate_slug : String
  full_name : String
  given_name : String
  family_name : String
  additional_name : String
  party : String
  primary_party : String
  winner : PyVal
  write_in : String
  reporting_level : String
  jurisdiction : String
  county_ocd_id : String
  votes : Int
  total_votes : Int
  vote_breakdowns : String
deriving DecidableEq

/-- Python's `str.lower()`: the per-character lowercase mapping (the
source data is ASCII, where the two coincide). -/
def pyLower (s : String) : String :=
  ⟨s.data.map Char.toLower⟩

/-- Python `needle in hay` on lists of characters. -/
def subChars (pat : List Char) : List Char → Bool
  | [] => decide (pat = [])
  | c :: rest => pat.isPrefixOf (c :: rest) || subChars pat rest

/-- Python's substring containment `pat in s`. -/
def subStr (pat s : String) : Bool :=
  subChars pat.data s.data

/-- One fuel-indexed step of Python's `str.replace(pat, "")`:
left-to-right, non-overlapping, every occurrence.  The fuel only needs
to cover the length of the scanned list. -/
def removeAllAux (pat : List Char) : Nat → List Char → List Char
  | _, [] => []
  | 0, l => l
  | fuel + 1, c :: rest =>
    if pat ≠ [] ∧ pat.isPrefixOf (c :: rest) then
      removeAllAux pat fuel ((c :: rest).drop pat.length)
    else
      c :: removeAllAux pat fuel rest

/-- Python's `s.replace(pat, "")`. -/
def removeAll (pat s : String) : String :=
  ⟨removeAllAux pat.data s.data.length s.data⟩

/-- `PARTY_MAP`: raw party values to canonical abbreviations. -/
def PARTY_MAP : List (String × String) :=
  [("BOT", "UNF"), ("Democratic", "DEM"), ("Republican", "REP"),
   ("Libertarian", "LIB"), ("Green", "GRN"), ("Unaffiliated", "UNF")]

/-- `district_offices`: the offices elected by district. -/
def district_offices : List String :=
  ["U.S. House of Representatives", "State Senate", "House of Delegates"]

/-- `_clean_office`: first case-insensitive substring rule wins,
otherwise the raw office name passes through. -/
def _clean_office (office : String) : String :=
  let lc := pyLower office
  if subStr "president" lc then "President"
  else if subStr "u.s. senat" lc then "U.S. Senate"
  else if subStr "congress" lc then "U.S. House of Representatives"
  else if subStr "state senat" lc then "State Senate"
  else if subStr "governor" lc then "Governor"
  else office

/-- `_clean_party`: `"Both Parties"` cleans to null; otherwise the
`PARTY_MAP` entry, unmapped values passing through. -/
def _clean_party (party : String) : Option String :=
  if party = "Both Parties" then none
  else
    match PARTY_MAP.lookup party with
    | some ab => some ab
    | none => some party

/-- `_strip_leading_zeros`: Python `val.lstrip("0")`. -/
def _strip_leading_zeros (val : String) : String :=
  ⟨val.data.dropWhile (· = '0')⟩

/-- The query `_get_office` builds; it identifies the resolved `Office`
row (the cache is keyed by `Office.make_key` of exactly these fields and
the code asserts the fetched row has this key). -/
structure OfficeQuery where
  state : String
  name : String
  district : Option String
deriving DecidableEq

/-- `_get_office`: state is `"MD"`, overridden to `"US"` for President;
a district (with leading zeros stripped) is added exactly for the three
district offices.  The record's own `state` field is never read. -/
def _get_office (raw_result : RawResult) : OfficeQuery :=
  let name := _clean_office raw_result.office
  let st := if name = "President" then "US" else "MD"
  let district :=
    if name ∈ district_offices then
      some (_strip_leading_zeros raw_result.district)
    else none
  ⟨st, name, district⟩

/-- `_get_party` applied to the value of the chosen attribute: null for
an empty value or one cleaning to null, else the abbreviation that
identifies the `Party` row.  (A failing `Party.objects.get` aborts the
run; no claim depends on the set of seeded parties, so resolution by
abbreviation is kept total.) -/
def _get_party (party : String) : Option String :=
  if party = "" then none
  else
    match _clean_party party with
    | none => none
    | some clean_abbrev => some clean_abbrev

/-- `_parse_winner`: `"Y"` (post-2002) or the integer `1` (2002). -/
def _parse_winner (raw_result : RawResult) : Bool :=
  if raw_result.winner = .s "Y" then true
  else if raw_result.winner = .i 1 then true
  else false

/-- `_parse_write_in`: `"Y"` marker (post-2002) or the `zz998` family
name sentinel (2002). -/
def _parse_write_in (raw_result : RawResult) : Bool :=
  if raw_result.write_in = "Y" then true
  else if raw_result.family_name = "zz998" then true
  else false

/-- The dynamically-typed value `_get_ocd_id` returns: the county branch
ends in a trailing comma in the source, so it returns a one-element
tuple, while the other supported branches return a plain string. -/
inductive OcdId where
  | tup1 (s : String)
  | str (s : String)
  | null
deriving DecidableEq

/-- `_get_ocd_id`, branch by reporting level.  The county branch
faithfully keeps the source's trailing comma (a 1-tuple). -/
def _get_ocd_id (raw_result : RawResult) : OcdId :=
  let clean_jurisdiction := _strip_leading_zeros raw_result.jurisdiction
  if raw_result.reporting_level = "county" then
    .tup1 ("ocd-division/country:us/state:md/county:" ++ clean_jurisdiction)
  else if raw_result.reporting_level = "state_legislative" then
    .str ("ocd-division/country:us/state:md/sldl:" ++ clean_jurisdiction)
  else if raw_result.reporting_level = "precinct" then
    .str (raw_result.county_ocd_id ++ "/precinct:" ++ clean_jurisdiction)
  else
    .null

/-- `get_raw_results_after_2000`: the stream every pass iterates,
filtered to Maryland rows whose end date is on or after 2002-01-01. -/
def get_raw_results_after_2000 (allRaw : List RawResult) : List RawResult :=
  allRaw.filter (fun r => r.state == "MD" && Date.leB ⟨2002, 1, 1⟩ r.end_date)

/-- The dict `get_contest_fields` builds: the `contest_fields` columns
copied from the raw record (`primary_type` deleted when falsy) plus the
resolved office and primary party. -/
structure ContestFields where
  source : String
  election_id : String
  state : String
  start_date : Date
  end_date : Date
  election_type : String
  primary_type : Option String
  result_type : String
  special : Bool
  office : OfficeQuery
  primary_party : Option String
deriving DecidableEq

/-- `get_contest_fields`. -/
def get_contest_fields (raw_result : RawResult) : ContestFields :=
  { source := raw_result.source
    election_id := raw_result.election_id
    state := raw_result.state
    start_date := raw_result.start_date
    end_date := raw_result.end_date
    election_type := raw_result.election_type
    primary_type :=
      if raw_result.primary_type = "" then none else some raw_result.primary_type
    result_type := raw_result.result_type
    special := raw_result.special
    office := _get_office raw_result
    primary_party := _get_party raw_result.primary_party }

/-- `contest_key`: the dedup identity of a contest.  When the cleaned
office is not a district office and the record carries a district, the
source runs `slug.replace('-' + district.lower(), '')` on the slug. -/
def contest_key (raw_result : RawResult) : String × String :=
  let slug :=
    if _clean_office raw_result.office ∉ district_offices ∧
        raw_result.district ≠ "" then
      removeAll ("-" ++ pyLower raw_result.district) raw_result.contest_slug
    else raw_result.contest_slug
  (raw_result.election_id, slug)

/-- A persisted `Contest` row: the built fields plus the creation and
update timestamps stamped in Pass 1. -/
structure Contest where
  fields : ContestFields
  created : Nat
  updated : Nat
deriving DecidableEq

/-- The `Contest` row Pass 1 buffers for a raw record. -/
def mkContest (raw_result : RawResult) (now : Nat) : Contest :=
  ⟨get_contest_fields raw_result, now, now⟩

/-- The loop of `create_unique_contests_after_2000` over the remaining
records, carrying the `seen` key set. -/
def contestsGo (now : Nat) :
    List RawResult → List (String × String) → List Contest
  | [], _ => []
  | rr :: rest, seen =>
    let key := contest_key rr
    if key ∈ seen then contestsGo now rest seen
    else mkContest rr now :: contestsGo now rest (key :: seen)

/-- Pass 1, `create_unique_contests_after_2000`: one buffered `Contest`
per unseen contest key of the filtered stream, bulk-inserted at the
end (order-preserving, so modelled as the buffered list itself). -/
def create_unique_contests_after_2000 (allRaw : List RawResult) (now : Nat) :
    List Contest :=
  contestsGo now (get_raw_results_after_2000 allRaw) []

/-- The subsequence of first occurrences: keeps each record whose
contest key has not occurred earlier (nor lies in `seen`). -/
def firstOccAux : List RawResult → List (String × String) → List RawResult
  | [], _ => []
  | rr :: rest, seen =>
    if contest_key rr ∈ seen then firstOccAux rest seen
    else rr :: firstOccAux rest (contest_key rr :: seen)

/-- The first record of the list bearing each distinct contest key, in
stream order. -/
def firstOccurrences (l : List RawResult) : List RawResult :=
  firstOccAux l []

/-- The query dict of `cached_get_contest`: the contest fields with the
`source` key popped.  `primary_type = none` means the key is absent, so
the lookup does not constrain that column. -/
structure ContestQuery where
  election_id : String
  state : String
  start_date : Date
  end_date : Date
  election_type : String
  primary_type : Option String
  result_type : String
  special : Bool
  office : OfficeQuery
  primary_party : Option String
deriving DecidableEq

/-- The query `cached_get_contest` re-derives for a raw record. -/
def contestQueryOf (raw_result : RawResult) : ContestQuery :=
  let f := get_contest_fields raw_result
  { election_id := f.election_id
    state := f.state
    start_date := f.start_date
    end_date := f.end_date
    election_type := f.election_type
    primary_type := f.primary_type
    result_type := f.result_type
    special := f.special
    office := f.office
    primary_party := f.primary_party }

/-- Whether a persisted contest row matches the field query
(`Contest.objects.get(**fields)`): every carried field must agree; an
absent `primary_type` key filters nothing. -/
def matchesContest (c : Contest) (q : ContestQuery) : Bool :=
  decide (c.fields.election_id = q.election_id) &&
  decide (c.fields.state = q.state) &&
  decide (c.fields.start_date = q.start_date) &&
  decide (c.fields.end_date = q.end_date) &&
  decide (c.fields.election_type = q.election_type) &&
  (match q.primary_type with
   | none => true
   | some v => decide (c.fields.primary_type = some v)) &&
  decide (c.fields.result_type = q.result_type) &&
  decide (c.fields.special = q.special) &&
  decide (c.fields.office = q.office) &&
  decide (c.fields.primary_party = q.primary_party)

/-- `objects.get(...)` on a collection: the unique matching row. -/
def getUnique {α : Type} (p : α → Bool) (db : List α) : Option α :=
  match db.filter p with
  | [c] => some c
  | _ => none

/-- The string cache key of `cached_get_contest` and
`cached_get_candidate`: Python `"%s-%s" % (a, b)`. -/
def cacheKey (a b : String) : String :=
  a ++ "-" ++ b

/-- `cached_get_contest`: per-run cache keyed by
election id and raw contest slug; on a miss the contest is fetched by
its re-derived field set (minus `source`) and cached.  Returns the
contest and the updated cache, or `none` on `DoesNotExist`. -/
def cached_get_contest (raw_result : RawResult)
    (cache : List (String × Contest)) (db : List Contest) :
    Option (Contest × List (String × Contest)) :=
  let key := cacheKey raw_result.election_id raw_result.contest_slug
  match cache.lookup key with
  | some contest => some (contest, cache)
  | none =>
    match getUnique (fun c => matchesContest c (contestQueryOf raw_result)) db with
    | some contest => some (contest, (key, contest) :: cache)
    | none => none

/-- The name parts produced by the external `nameparser.HumanName`
collaborator. -/
structure HName where
  first : String
  last : String
  middle : String
  suffix : String
deriving DecidableEq

/-- The dict a candidate builder returns: the `candidate_fields` columns
(deletable name parts as `Option`, `none` meaning the key was deleted or
never set) plus the `suffix` key the modern builder adds. -/
structure CandidateFields where
  source : String
  election_id : String
  state : String
  full_name : String
  given_name : Option String
  family_name : Option String
  additional_name : Option String
  suffix : Option String
deriving DecidableEq

/-- The plain copy of the `candidate_fields` columns off a raw record
(`_get_fields`), before a builder edits it. -/
def baseCandidateFields (raw_result : RawResult) : CandidateFields :=
  { source := raw_result.source
    election_id := raw_result.election_id
    state := raw_result.state
    full_name := raw_result.full_name
    given_name := some raw_result.given_name
    family_name := some raw_result.family_name
    additional_name := some raw_result.additional_name
    suffix := none }

/-- `get_candidate_fields_2002`, the legacy builder: the `zz998` family
name marks the aggregate write-in (name parts deleted, full name set to
the aggregate label); otherwise the full name joins given name, the
additional name unless it is the `\N` null marker, and family name. -/
def get_candidate_fields_2002 (raw_result : RawResult) : CandidateFields :=
  let fields := baseCandidateFields raw_result
  if raw_result.family_name = "zz998" then
    { fields with
      family_name := none
      given_name := none
      additional_name := none
      full_name := "Other Write-Ins" }
  else
    let bits :=
      if raw_result.additional_name = "\\N" then
        [raw_result.given_name, raw_result.family_name]
      else
        [raw_result.given_name, raw_result.additional_name,
         raw_result.family_name]
    let fields :=
      if raw_result.additional_name = "\\N" then
        { fields with additional_name := none }
      else fields
    { fields with full_name := " ".intercalate bits }

/-- `get_candidate_fields_after_2000`, the modern builder: the aggregate
label passes through; otherwise the name parts come from the external
name parser. -/
def get_candidate_fields_after_2000 (parse : String → HName)
    (raw_result : RawResult) : CandidateFields :=
  let fields := baseCandidateFields raw_result
  if raw_result.full_name = "Other Write-Ins" then fields
  else
    let name := parse raw_result.full_name
    { fields with
      given_name := some name.first
      family_name := some name.last
      additional_name := some name.middle
      suffix := some name.suffix }

/-- `get_candidate_fields`, the era dispatch on the end-date year:
exactly 2002 → legacy builder, 2003 and later → modern builder, any
earlier year → `ValueError` (modelled as `none`). -/
def get_candidate_fields (parse : String → HName) (raw_result : RawResult) :
    Option CandidateFields :=
  let year := raw_result.end_date.year
  if year = 2002 then some (get_candidate_fields_2002 raw_result)
  else if year ≥ 2003 then some (get_candidate_fields_after_2000 parse raw_result)
  else none

/-- A persisted `Candidate` row: its built fields, its owning contest,
and its flags. -/
structure Candidate where
  fields : CandidateFields
  contest : Contest
  flags : List String
deriving DecidableEq

/-- The `Candidate` row Pass 2 buffers: the aggregate label earns the
`aggregate` flag; any other full name containing `other` only logs a
warning. -/
def mkCandidate (fields : CandidateFields) (contest : Contest) : Candidate :=
  let flags :=
    if subStr "other" (pyLower fields.full_name) then
      if fields.full_name = "Other Write-Ins" then ["aggregate"] else []
    else []
  ⟨fields, contest, flags⟩

/-- The loop of `create_unique_candidates_after_2000`, carrying the
contest cache and the `seen` candidate-key set; `none` models an
aborting lookup failure. -/
def candidatesGo (parse : String → HName) (db : List Contest) :
    List RawResult → List (String × Contest) → List (String × String) →
    Option (List Candidate)
  | [], _, _ => some []
  | rr :: rest, cache, seen =>
    if (rr.election_id, rr.candidate_slug) ∈ seen then
      candidatesGo parse db rest cache seen
    else
      match get_candidate_fields parse rr with
      | none => none
      | some fields =>
        match cached_get_contest rr cache db with
        | none => none
        | some (contest, cache1) =>
          (candidatesGo parse db rest cache1
              ((rr.election_id, rr.candidate_slug) :: seen)).map
            (fun cs => mkCandidate fields contest :: cs)

/-- Pass 2, `create_unique_candidates_after_2000`: one buffered
`Candidate` per unseen (election id, candidate slug) of the filtered
stream, its contest resolved through `cached_get_contest` against the
contest collection `db`. -/
def create_unique_candidates_after_2000 (parse : String → HName)
    (db : List Contest) (allRaw : List RawResult) : Option (List Candidate) :=
  candidatesGo parse db (get_raw_results_after_2000 allRaw) [] []

/-- Whether a persisted candidate row matches the field query
(`Candidate.objects.get(**fields)`): every carried field must agree; an
absent optional key filters nothing. -/
def matchesCandidate (c : Candidate) (q : CandidateFields) : Bool :=
  decide (c.fields.source = q.source) &&
  decide (c.fields.election_id = q.election_id) &&
  decide (c.fields.state = q.state) &&
  decide (c.fields.full_name = q.full_name) &&
  (match q.given_name with
   | none => true
   | some v => decide (c.fields.given_name = some v)) &&
  (match q.family_name with
   | none => true
   | some v => decide (c.fields.family_name = some v)) &&
  (match q.additional_name with
   | none => true
   | some v => decide (c.fields.additional_name = some v)) &&
  (match q.suffix with
   | none => true
   | some v => decide (c.fields.suffix = some v))

/-- `cached_get_candidate`: per-run cache keyed by election id and
candidate slug; on a miss the candidate fields are re-derived and the
candidate fetched by that field set.  Returns the candidate and the
updated cache, or `none` on a fatal failure. -/
def cached_get_candidate (parse : String → HName) (candDb : List Candidate)
    (raw_result : RawResult) (cache : List (String × Candidate)) :
    Option (Candidate × List (String × Candidate)) :=
  let key := cacheKey raw_result.election_id raw_result.candidate_slug
  match cache.lookup key with
  | some candidate => some (candidate, cache)
  | none =>
    match get_candidate_fields parse raw_result with
    | none => none
    | some fields =>
      match getUnique (fun c => matchesCandidate c fields) candDb with
      | some candidate => some (candidate, (key, candidate) :: cache)
      | none => none

/-- A persisted `Result` row: the `result_fields` columns (jurisdiction
overwritten with its normalized form), the resolved candidate, the
contest taken from the candidate, derived flags, optional party
abbreviation, the geographic id and the raw-record back-reference. -/
structure Result where
  source : String
  election_id : String
  state : String
  reporting_level : String
  jurisdiction : String
  votes : Int
  total_votes : Int
  vote_breakdowns : String
  candidate : Candidate
  contest : Contest
  raw_result : RawResult
  party : Option String
  winner : Bool
  write_in : Bool
  ocd_id : OcdId
deriving DecidableEq

/-- The `Result` row Pass 3 buffers for a raw record and its resolved
candidate. -/
def mkResult (rr : RawResult) (candidate : Candidate) : Result :=
  { source := rr.source
    election_id := rr.election_id
    state := rr.state
    reporting_level := rr.reporting_level
    jurisdiction := _strip_leading_zeros rr.jurisdiction
    votes := rr.votes
    total_votes := rr.total_votes
    vote_breakdowns := rr.vote_breakdowns
    candidate := candidate
    contest := candidate.contest
    raw_result := rr
    party := _get_party rr.party
    winner := _parse_winner rr
    write_in := _parse_write_in rr
    ocd_id := _get_ocd_id rr }

/-- The creation loop of `create_unique_results_after_2000`: one result
per record, no dedup, candidate resolved through the per-run cache.
The batched bulk inserts (`bufsiz = 1000`) flush the buffered rows in
order, so the inserted collection content is the produced list. -/
def resultsGo (parse : String → HName) (candDb : List Candidate) :
    List RawResult → List (String × Candidate) → Option (List Result)
  | [], _ => some []
  | rr :: rest, cache =>
    match cached_get_candidate parse candDb rr cache with
    | none => none
    | some (candidate, cache1) =>
      (resultsGo parse candDb rest cache1).map
        (fun rs => mkResult rr candidate :: rs)

/-- The election ids of the filtered raw stream (`distinct` only drops
repetitions, which membership ignores). -/
def electionIdsOf (allRaw : List RawResult) : List String :=
  (get_raw_results_after_2000 allRaw).map (·.election_id)

/-- Whether a persisted result lies in the filtered election scope. -/
def inScope (allRaw : List RawResult) (res : Result) : Bool :=
  decide (res.election_id ∈ electionIdsOf allRaw)

/-- `get_results_after_2000`: the persisted results whose election id
occurs among the filtered raw results. -/
def get_results_after_2000 (db : List Result) (allRaw : List RawResult) :
    List Result :=
  db.filter (inScope allRaw)

/-- Pass 3, `create_unique_results_after_2000`: deletes every persisted
result in the filtered election scope, then inserts one result per
filtered raw record.  Returns the resulting `Result` collection, or
`none` when a candidate resolution aborts the run. -/
def create_unique_results_after_2000 (parse : String → HName)
    (candDb : List Candidate) (db : List Result) (allRaw : List RawResult) :
    Option (List Result) :=
  let kept := db.filter (fun res => !inScope allRaw res)
  (resultsGo parse candDb (get_raw_results_after_2000 allRaw) []).map
    (fun newResults => kept ++ newResults)

/-! ### Sample rows used by concrete evaluations -/

/-- A trivial name parser standing in for the external collaborator. -/
def parse0 : String → HName := fun _ => ⟨"", "", "", ""⟩

/-- A 2002 Maryland county-level raw row. -/
def recW : RawResult :=
  { source := "20021105__md__general.csv"
    election_id := "md-2002-11-05-general"
    state := "MD"
    start_date := ⟨2002, 11, 5⟩
    end_date := ⟨2002, 11, 5⟩
    election_type := "general"
    primary_type := ""
    result_type := "certified"
    special := false
    office := "Governor"
    district := ""
    contest_slug := "governor"
    candidate_slug := "john-q-smith"
    full_name := "John Q Smith"
    given_name := "John"
    family_name := "Smith"
    additional_name := "Q"
    party := "Democratic"
    primary_party := ""
    winner := .i 1
    write_in := ""
    reporting_level := "county"
    jurisdiction := "24"
    county_ocd_id := "ocd-division/country:us/state:md"
    votes := 10
    total_votes := 100
    vote_breakdowns := "" }

/-- The candidate Pass 2 would build for `recW` against the Pass 1
contest row stamped at clock 7. -/
def candW : Candidate :=
  mkCandidate (get_candidate_fields_2002 recW) (mkContest recW 7)

/-- A presidential row whose slug embeds its district twice. -/
def recP : RawResult :=
  { recW with
    office := "President"
    district := "08"
    contest_slug := "2000-08-president-08"
    candidate_slug := "al-gore"
    full_name := "Al Gore"
    given_name := "Al"
    family_name := "Gore" }

/-- The contest-key behavior the claim describes (used only to compare
against the code): strip exactly one trailing `-district` suffix,
matched case-insensitively, when the cleaned office is not a district
office and the district is non-empty. -/
def contestKeyClaimed (rr : RawResult) : String × String :=
  let slug := rr.contest_slug
  let pat := "-" ++ pyLower rr.district
  let slug1 :=
    if _clean_office rr.office ∉ district_offices ∧ rr.district ≠ "" then
      if pat.data.isSuffixOf (pyLower slug).data then
        ⟨slug.data.take (slug.data.length - pat.data.length)⟩
      else slug
    else slug
  (rr.election_id, slug1)

/-- Python's `str.replace(pat, '')` as a relation: every left-to-right,
non-overlapping occurrence of `pat` is removed; a character not
starting an occurrence is kept. -/
inductive RemovesAll (pat : List Char) : List Char → List Char → Prop where
  | nil : RemovesAll pat [] []
  | hit : ∀ {rest out}, pat ≠ [] → RemovesAll pat rest out →
      RemovesAll pat (pat ++ rest) out
  | keep : ∀ {c rest out}, (pat = [] ∨ pat.isPrefixOf (c :: rest) = false) →
      RemovesAll pat rest out → RemovesAll pat (c :: rest) (c :: out)

/-- The result built for `recW` against `candW`. -/
def resW : Result := mkResult recW candW

/-- The contest row Pass 1 creates for a contest key: the builder
applied to the first filtered record bearing that key. -/
def pass1ContestFor (allRaw : List RawResult) (now : Nat)
    (k : String × String) : Option Contest :=
  ((firstOccurrences (get_raw_results_after_2000 allRaw)).find?
      (fun r => decide (contest_key r = k))).map (fun r => mkContest r now)

/-- Invariant of the per-run contest cache: every entry was stored for
some filtered record under that record's string cache key, and holds
the contest Pass 1 created for that record's corrected key. -/
def contestCacheOk (allRaw : List RawResult) (now : Nat)
    (cache : List (String × Contest)) : Prop :=
  ∀ e ∈ cache, ∃ r0 ∈ get_raw_results_after_2000 allRaw,
    e.1 = cacheKey r0.election_id r0.contest_slug ∧
    some e.2 = pass1ContestFor allRaw now (contest_key r0)

/-- The candidate Pass 2 builds for `recP` against the Pass 1 contest
row stamped at clock 7. -/
def candP : Candidate :=
  mkCandidate (get_candidate_fields_2002 recP) (mkContest recP 7)

/-- A 2002 row carrying the `zz998` write-in sentinel as its family
name (its raw write-in marker is empty, not `"Y"`). -/
def recZ : RawResult :=
  { recW with family_name := "zz998", candidate_slug := "other-write-ins" }

/-- The aggregate write-in candidate built for `recZ`: the legacy
builder deletes its given/family/additional name fields. -/
def candZ : Candidate :=
  mkCandidate (get_candidate_fields_2002 recZ) (mkContest recZ 7)

/-! ### Claim theorems -/

/-- C1: the geographic-id function does return null for unsupported
levels and the parent-county-plus-precinct string at precinct level,
but at county level the source's trailing comma makes it return the
one-element tuple containing the templated county string, not the
string itself as the claim states. -/
theorem c1_county_ocd_id_is_a_tuple :
    _get_ocd_id recW =
      OcdId.tup1 "ocd-division/country:us/state:md/county:24" ∧
    _get_ocd_id recW ≠
      OcdId.str "ocd-division/country:us/state:md/county:24" ∧
    _get_ocd_id { recW with reporting_level := "precinct", jurisdiction := "003" } =
      OcdId.str "ocd-division/country:us/state:md/precinct:3" ∧
    _get_ocd_id { recW with reporting_level := "congressional_district" } =
      OcdId.null := by
  refine ⟨rfl, ?_, rfl, rfl⟩
  decide

/-- C4 counterexample: for the 2002 sentinel row `recZ`, Pass 3's loop
resolves the aggregate candidate `candZ` and the created result's
write-in flag is true, although the raw marker is not `"Y"` and the
resolved candidate's family name is not the sentinel (the legacy
builder deleted it).  So the flag is not "true iff the raw marker is
`"Y"` or the resolved candidate's family name equals the sentinel", as
the claim states. -/
theorem c4_write_in_flag_counterexample :
    resultsGo parse0 [candZ] [recZ] [] = some [mkResult recZ candZ] ∧
    (mkResult recZ candZ).write_in = true ∧
    recZ.write_in ≠ "Y" ∧
    (mkResult recZ candZ).candidate.fields.family_name ≠ some "zz998" ∧
    ¬ ((mkResult recZ candZ).write_in = true ↔
        (recZ.write_in = "Y" ∨
          (mkResult recZ candZ).candidate.fields.family_name =
            some "zz998")) := by
  decide

/-- C4 (amended): a Pass 3 result's write-in flag is true exactly when
the raw write-in marker is `"Y"` or the raw record's own family name is
the `zz998` legacy write-in sentinel — the code tests the raw field,
not the resolved candidate's name parts, which the legacy builder
deletes on exactly the sentinel rows. -/
theorem c4_write_in_flag (rr : RawResult) (cand : Candidate) :
    (mkResult rr cand).write_in = true ↔
      rr.write_in = "Y" ∨ rr.family_name = "zz998" := by
  by_cases h1 : rr.write_in = "Y" <;>
    by_cases h2 : rr.family_name = "zz998" <;>
      simp [mkResult, _parse_write_in, h1, h2]

/-- C9: the office-resolution query never reads the record's own state
field; it queries state `"MD"`, overridden to `"US"` exactly when the
cleaned office name is `"President"`. -/
theorem c9_office_query_state (rr : RawResult) (s : String) :
    _get_office { rr with state := s } = _get_office rr ∧
    (_get_office rr).state =
      (if _clean_office rr.office = "President" then "US" else "MD") :=
  ⟨rfl, rfl⟩

/-- C8: the legacy (2002) candidate builder drops the three name-part
fields and uses the aggregate label when the family name is the
write-in sentinel; otherwise the full name joins given name, additional
name (omitted exactly when it is the legacy `\N` null marker) and
family name with spaces. -/
theorem c8_legacy_candidate_fields (rr : RawResult) :
    (rr.family_name = "zz998" →
      (get_candidate_fields_2002 rr).given_name = none ∧
      (get_candidate_fields_2002 rr).family_name = none ∧
      (get_candidate_fields_2002 rr).additional_name = none ∧
      (get_candidate_fields_2002 rr).full_name = "Other Write-Ins") ∧
    (rr.family_name ≠ "zz998" →
      (get_candidate_fields_2002 rr).full_name =
        " ".intercalate
          (rr.given_name ::
            ((if rr.additional_name = "\\N" then [] else [rr.additional_name]) ++
              [rr.family_name]))) := by
  constructor
  · intro h
    simp [get_candidate_fields_2002, h]
  · intro h
    by_cases ha : rr.additional_name = "\\N" <;>
      simp [get_candidate_fields_2002, h, ha]

/-- Witness for C8 at two concrete rows: the write-in sentinel row and
a row with a `\N` additional name. -/
theorem c8_legacy_candidate_fields_witness :
    (get_candidate_fields_2002 { recW with family_name := "zz998" }).full_name =
      "Other Write-Ins" ∧
    (get_candidate_fields_2002 { recW with additional_name := "\\N" }).full_name =
      "John Smith" := by
  constructor
  · exact ((c8_legacy_candidate_fields { recW with family_name := "zz998" }).1
      rfl).2.2.2
  · have h := (c8_legacy_candidate_fields
      { recW with additional_name := "\\N" }).2 (by decide)
    simpa using h

/-- C10: every record of the filtered stream has an end-date year of at
least 2002, so the era dispatch in `get_candidate_fields` never reaches
the `ValueError` branch. -/
theorem c10_era_dispatch_never_fails (parse : String → HName)
    (allRaw : List RawResult) (rr : RawResult)
    (h : rr ∈ get_raw_results_after_2000 allRaw) :
    (get_candidate_fields parse rr).isSome := by
  have hp : rr.state = "MD" ∧ Date.leB ⟨2002, 1, 1⟩ rr.end_date := by
    have := List.of_mem_filter h
    simpa [Bool.and_eq_true] using this
  have hy : 2002 ≤ rr.end_date.year := by
    have := hp.2
    simp only [Date.leB, Bool.or_eq_true, Bool.and_eq_true,
      decide_eq_true_eq] at this
    omega
  by_cases h2002 : rr.end_date.year = 2002
  · simp [get_candidate_fields, h2002]
  · have : 2003 ≤ rr.end_date.year := by omega
    simp [get_candidate_fields, h2002, this]

/-- Witness for C10: the concrete filtered stream over `[recW]`
contains `recW`, and the dispatch succeeds on it. -/
theorem c10_era_dispatch_never_fails_witness :
    (get_candidate_fields parse0 recW).isSome :=
  c10_era_dispatch_never_fails parse0 [recW] recW (by decide)

/-- C3 counterexample: office President, district `08`, slug
`2000-08-president-08`.  The code removes every occurrence of `-08`,
keying the record as `2000-president`; the claim's trailing-suffix
strip would key it as `2000-08-president`. -/
theorem c3_counterexample :
    contest_key recP = ("md-2002-11-05-general", "2000-president") ∧
    contestKeyClaimed recP = ("md-2002-11-05-general", "2000-08-president") ∧
    contest_key recP ≠ contestKeyClaimed recP := by
  refine ⟨by decide, by decide, by decide⟩

/-- The fuel-indexed scanner satisfies the removal relation whenever the
fuel covers the scanned list. -/
theorem removeAllAux_spec (pat : List Char) :
    ∀ (fuel : Nat) (l : List Char), l.length ≤ fuel →
      RemovesAll pat l (removeAllAux pat fuel l) := by
  intro fuel
  induction fuel with
  | zero =>
    intro l hl
    have : l = [] := List.eq_nil_of_length_eq_zero (Nat.le_zero.mp hl)
    subst this
    exact RemovesAll.nil
  | succ fuel ih =>
    intro l hl
    match l with
    | [] => exact RemovesAll.nil
    | c :: rest =>
      by_cases h : pat ≠ [] ∧ pat.isPrefixOf (c :: rest)
      · obtain ⟨hne, hpre⟩ := h
        obtain ⟨t, ht⟩ := List.isPrefixOf_iff_prefix.mp hpre
        have hdrop : (c :: rest).drop pat.length = t := by
          rw [← ht]; exact List.drop_left pat t
        have hlen : t.length ≤ fuel := by
          have h1 : (c :: rest).length = pat.length + t.length := by
            rw [← ht, List.length_append]
          have h2 : 1 ≤ pat.length :=
            List.length_pos.mpr hne
          simp only [List.length_cons] at hl h1
          omega
        have hstep : removeAllAux pat (fuel + 1) (c :: rest) =
            removeAllAux pat fuel ((c :: rest).drop pat.length) := by
          simp [removeAllAux, hne, hpre]
        rw [hstep, hdrop, ← ht]
        exact RemovesAll.hit hne (ih t hlen)
      · have hstep : removeAllAux pat (fuel + 1) (c :: rest) =
            c :: removeAllAux pat fuel rest := by
          simp only [removeAllAux, if_neg h]
        rw [hstep]
        have hcond : pat = [] ∨ pat.isPrefixOf (c :: rest) = false := by
          by_cases hp : pat = []
          · exact Or.inl hp
          · right
            rcases Bool.eq_false_or_eq_true (pat.isPrefixOf (c :: rest)) with
              ht | hf
            · exact absurd ⟨hp, ht⟩ h
            · exact hf
        have hrest : rest.length ≤ fuel := by
          simp only [List.length_cons] at hl
          omega
        exact RemovesAll.keep hcond (ih rest hrest)

/-- `removeAll` satisfies the removal relation. -/
theorem removeAll_spec (pat s : String) :
    RemovesAll pat.data s.data (removeAll pat s).data :=
  removeAllAux_spec pat.data s.data.length s.data (Nat.le_refl _)

/-- C3 (amended): the contest key pairs the election id with the slug;
when the cleaned office is not a district office and the district is
non-empty, every left-to-right non-overlapping occurrence of `-`
followed by the lowercased district is removed from the slug (an exact
match against the slug, not a case-insensitive trailing-suffix strip);
otherwise the slug is unchanged. -/
theorem c3_contest_key_amended (rr : RawResult) :
    (contest_key rr).1 = rr.election_id ∧
    (¬(_clean_office rr.office ∉ district_offices ∧ rr.district ≠ "") →
      (contest_key rr).2 = rr.contest_slug) ∧
    ((_clean_office rr.office ∉ district_offices ∧ rr.district ≠ "") →
      RemovesAll ("-" ++ pyLower rr.district).data rr.contest_slug.data
        (contest_key rr).2.data) := by
  refine ⟨rfl, ?_, ?_⟩ <;> intro h
  · simp [contest_key, h]
  · simp only [contest_key, if_pos h]
    exact removeAll_spec _ _

/-- Witness for the amended C3 at the counterexample row. -/
theorem c3_contest_key_amended_witness :
    RemovesAll ("-" ++ pyLower recP.district).data recP.contest_slug.data
      (contest_key recP).2.data :=
  (c3_contest_key_amended recP).2.2 (by decide)

/-! ### Pass 1 structure lemmas -/

/-- Pass 1's loop emits exactly the first occurrences, mapped through
the contest builder. -/
theorem contestsGo_eq_map (now : Nat) :
    ∀ (l : List RawResult) (seen : List (String × String)),
      contestsGo now l seen = (firstOccAux l seen).map (fun r => mkContest r now) := by
  intro l
  induction l with
  | nil => intro seen; rfl
  | cons rr rest ih =>
    intro seen
    simp only [contestsGo, firstOccAux]
    by_cases h : contest_key rr ∈ seen
    · simp [h, ih]
    · simp [h, ih]

/-- The first occurrences form a subsequence of the stream. -/
theorem firstOccAux_sublist :
    ∀ (l : List RawResult) (seen : List (String × String)),
      (firstOccAux l seen).Sublist l := by
  intro l
  induction l with
  | nil => intro seen; simp [firstOccAux]
  | cons rr rest ih =>
    intro seen
    simp only [firstOccAux]
    by_cases h : contest_key rr ∈ seen
    · simp only [if_pos h]
      exact (ih seen).cons rr
    · simp only [if_neg h]
      exact (ih _).cons₂ rr

/-- No kept record's key lies in the carried `seen` set. -/
theorem firstOccAux_not_seen :
    ∀ (l : List RawResult) (seen : List (String × String)) (r : RawResult),
      r ∈ firstOccAux l seen → contest_key r ∉ seen := by
  intro l
  induction l with
  | nil => intro seen r h; simp [firstOccAux] at h
  | cons rr rest ih =>
    intro seen r h
    simp only [firstOccAux] at h
    by_cases hk : contest_key rr ∈ seen
    · rw [if_pos hk] at h
      exact ih seen r h
    · rw [if_neg hk] at h
      rcases List.mem_cons.mp h with rfl | hmem
      · exact hk
      · intro hcon
        exact ih _ r hmem (List.mem_cons_of_mem _ hcon)

/-- Distinct kept records bear distinct contest keys. -/
theorem firstOccAux_pairwise :
    ∀ (l : List RawResult) (seen : List (String × String)),
      (firstOccAux l seen).Pairwise
        (fun a b => contest_key a ≠ contest_key b) := by
  intro l
  induction l with
  | nil => intro seen; simp [firstOccAux]
  | cons rr rest ih =>
    intro seen
    simp only [firstOccAux]
    by_cases hk : contest_key rr ∈ seen
    · simpa [hk] using ih seen
    · rw [if_neg hk]
      refine List.Pairwise.cons ?_ (ih _)
      intro b hb
      have := firstOccAux_not_seen rest _ b hb
      intro hcon
      exact this (by simp [← hcon])

/-- Every stream record's key is either already seen or covered by some
kept record. -/
theorem firstOccAux_covers :
    ∀ (l : List RawResult) (seen : List (String × String)) (r : RawResult),
      r ∈ l → contest_key r ∈ seen ∨
        ∃ r0 ∈ firstOccAux l seen, contest_key r0 = contest_key r := by
  intro l
  induction l with
  | nil => intro seen r h; simp at h
  | cons rr rest ih =>
    intro seen r h
    simp only [firstOccAux]
    by_cases hk : contest_key rr ∈ seen
    · rw [if_pos hk]
      rcases List.mem_cons.mp h with rfl | hmem
      · exact Or.inl hk
      · exact ih seen r hmem
    · rw [if_neg hk]
      rcases List.mem_cons.mp h with heq | hmem
      · exact Or.inr ⟨rr, List.mem_cons_self rr _, by rw [heq]⟩
      · rcases ih (contest_key rr :: seen) r hmem with hseen | ⟨r0, hr0, hkey⟩
        · rcases List.mem_cons.mp hseen with heq | hseen2
          · exact Or.inr ⟨rr, List.mem_cons_self rr _, heq.symm⟩
          · exact Or.inl hseen2
        · exact Or.inr ⟨r0, List.mem_cons_of_mem _ hr0, hkey⟩

/-- Every kept record occurs in the stream after a prefix free of its
key: it is the first record bearing its key. -/
theorem firstOccAux_first :
    ∀ (l : List RawResult) (seen : List (String × String)) (r0 : RawResult),
      r0 ∈ firstOccAux l seen →
        ∃ pre suf, l = pre ++ r0 :: suf ∧
          ∀ p ∈ pre, contest_key p ≠ contest_key r0 := by
  intro l
  induction l with
  | nil => intro seen r0 h; simp [firstOccAux] at h
  | cons rr rest ih =>
    intro seen r0 h
    simp only [firstOccAux] at h
    by_cases hk : contest_key rr ∈ seen
    · rw [if_pos hk] at h
      obtain ⟨pre, suf, heq, hpre⟩ := ih seen r0 h
      refine ⟨rr :: pre, suf, by simp [heq], ?_⟩
      intro p hp
      rcases List.mem_cons.mp hp with rfl | hmem
      · intro hcon
        exact firstOccAux_not_seen rest seen r0 h (hcon ▸ hk)
      · exact hpre p hmem
    · rw [if_neg hk] at h
      rcases List.mem_cons.mp h with rfl | hmem
      · exact ⟨[], rest, rfl, by simp⟩
      · obtain ⟨pre, suf, heq, hpre⟩ := ih _ r0 hmem
        refine ⟨rr :: pre, suf, by simp [heq], ?_⟩
        intro p hp
        rcases List.mem_cons.mp hp with rfl | hpm
        · have := firstOccAux_not_seen rest _ r0 hmem
          intro hcon
          exact this (by simp [hcon])
        · exact hpre p hpm

/-- C5: Pass 1 buffers exactly one contest per distinct contest key of
the filtered stream — the contests are the first-occurrence records
mapped through the builder; the kept records form a subsequence with
pairwise distinct keys covering every stream record's key, and each is
the first record in stream order bearing its key. -/
theorem c5_one_contest_per_key (allRaw : List RawResult) (now : Nat) :
    create_unique_contests_after_2000 allRaw now =
      (firstOccurrences (get_raw_results_after_2000 allRaw)).map
        (fun r => mkContest r now) ∧
    (firstOccurrences (get_raw_results_after_2000 allRaw)).Sublist
      (get_raw_results_after_2000 allRaw) ∧
    (firstOccurrences (get_raw_results_after_2000 allRaw)).Pairwise
      (fun a b => contest_key a ≠ contest_key b) ∧
    (∀ r ∈ get_raw_results_after_2000 allRaw,
      ∃ r0 ∈ firstOccurrences (get_raw_results_after_2000 allRaw),
        contest_key r0 = contest_key r) ∧
    (∀ r0 ∈ firstOccurrences (get_raw_results_after_2000 allRaw),
      ∃ pre suf, get_raw_results_after_2000 allRaw = pre ++ r0 :: suf ∧
        ∀ p ∈ pre, contest_key p ≠ contest_key r0) := by
  refine ⟨contestsGo_eq_map now _ [], firstOccAux_sublist _ [],
    firstOccAux_pairwise _ [], ?_, ?_⟩
  · intro r hr
    rcases firstOccAux_covers _ [] r hr with hseen | hcov
    · simp at hseen
    · exact hcov
  · intro r0 hr0
    exact firstOccAux_first _ [] r0 hr0

/-- Witness for C5 on a concrete two-record stream sharing one key:
one contest is created, from the first record, and the second record's
key is covered. -/
theorem c5_one_contest_per_key_witness :
    create_unique_contests_after_2000 [recW, { recW with votes := 77 }] 7 =
      [mkContest recW 7] ∧
    ∃ r0 ∈ firstOccurrences
        (get_raw_results_after_2000 [recW, { recW with votes := 77 }]),
      contest_key r0 = contest_key { recW with votes := 77 } := by
  constructor
  · rw [(c5_one_contest_per_key [recW, { recW with votes := 77 }] 7).1]
    decide
  · exact (c5_one_contest_per_key [recW, { recW with votes := 77 }] 7).2.2.2.1
      { recW with votes := 77 } (by decide)

/-! ### Pass 3 structure lemmas -/

/-- The creation loop of Pass 3 makes one result per record, each with
its contest taken from its candidate and its election id copied from
its record. -/
theorem resultsGo_parts (parse : String → HName) (candDb : List Candidate) :
    ∀ (l : List RawResult) (cache : List (String × Candidate))
      (out : List Result),
      resultsGo parse candDb l cache = some out →
      out.length = l.length ∧
      (∀ res ∈ out, res.contest = res.candidate.contest) ∧
      (∀ res ∈ out, ∃ rr ∈ l, res.election_id = rr.election_id) := by
  intro l
  induction l with
  | nil =>
    intro cache out h
    simp only [resultsGo, Option.some.injEq] at h
    subst h
    simp
  | cons rr rest ih =>
    intro cache out h
    simp only [resultsGo] at h
    cases hc : cached_get_candidate parse candDb rr cache with
    | none => rw [hc] at h; simp at h
    | some pr =>
      rw [hc] at h
      obtain ⟨cand, cache1⟩ := pr
      simp only [] at h
      cases hr : resultsGo parse candDb rest cache1 with
      | none => rw [hr] at h; simp at h
      | some rs =>
        rw [hr] at h
        simp only [Option.map_some', Option.some.injEq] at h
        subst h
        obtain ⟨hlen, hcontest, heid⟩ := ih cache1 rs hr
        refine ⟨by simp [hlen], ?_, ?_⟩
        · intro res hres
          rcases List.mem_cons.mp hres with heq | hmem
          · rw [heq]; rfl
          · exact hcontest res hmem
        · intro res hres
          rcases List.mem_cons.mp hres with heq | hmem
          · exact ⟨rr, List.mem_cons_self rr _, by rw [heq]; rfl⟩
          · obtain ⟨rr2, hrr2, heq2⟩ := heid res hmem
            exact ⟨rr2, List.mem_cons_of_mem _ hrr2, heq2⟩

/-- C6: every result Pass 3's creation loop buffers carries the contest
of its resolved candidate. -/
theorem c6_result_contest_invariant (parse : String → HName)
    (candDb : List Candidate) (l : List RawResult)
    (cache : List (String × Candidate)) (out : List Result)
    (h : resultsGo parse candDb l cache = some out) :
    ∀ res ∈ out, res.contest = res.candidate.contest :=
  (resultsGo_parts parse candDb l cache out h).2.1

/-- Witness for C6: the concrete run over `[recW]` creates `resW`,
whose contest is its candidate's contest. -/
theorem c6_result_contest_invariant_witness :
    resW.contest = resW.candidate.contest :=
  c6_result_contest_invariant parse0 [candW] [recW] [] [resW] (by decide)
    resW (List.mem_singleton.mpr rfl)

/-- C7: a completed Pass 3 leaves exactly one result per filtered raw
record in the filtered election scope, leaves results outside the scope
untouched (the prior in-scope results having been deleted before any
insert), and running Pass 3 again on its own output reproduces that
output exactly. -/
theorem c7_results_full_replace (parse : String → HName)
    (candDb : List Candidate) (db : List Result) (allRaw : List RawResult)
    (out : List Result)
    (h : create_unique_results_after_2000 parse candDb db allRaw = some out) :
    out.countP (inScope allRaw) = (get_raw_results_after_2000 allRaw).length ∧
    out.filter (fun res => !inScope allRaw res) =
      db.filter (fun res => !inScope allRaw res) ∧
    create_unique_results_after_2000 parse candDb out allRaw = some out := by
  simp only [create_unique_results_after_2000] at h
  cases hr : resultsGo parse candDb (get_raw_results_after_2000 allRaw) [] with
  | none => rw [hr] at h; simp at h
  | some newR =>
    rw [hr] at h
    simp only [Option.map_some', Option.some.injEq] at h
    obtain ⟨hlen, -, heid⟩ :=
      resultsGo_parts parse candDb (get_raw_results_after_2000 allRaw) [] newR hr
    have hin : ∀ res ∈ newR, inScope allRaw res = true := by
      intro res hres
      obtain ⟨rr, hrr, heq⟩ := heid res hres
      simp only [inScope, electionIdsOf, decide_eq_true_eq, List.mem_map]
      exact ⟨rr, hrr, heq.symm⟩
    have hkept : ∀ res ∈ db.filter (fun res => !inScope allRaw res),
        inScope allRaw res = false := by
      intro res hres
      have := List.of_mem_filter hres
      simpa using this
    have hc1 : out.countP (inScope allRaw) =
        (get_raw_results_after_2000 allRaw).length := by
      rw [← h, List.countP_append]
      have hz : (db.filter (fun res => !inScope allRaw res)).countP
          (inScope allRaw) = 0 := by
        rw [List.countP_eq_zero]
        intro res hres
        simp [hkept res hres]
      have hfull : newR.countP (inScope allRaw) = newR.length := by
        rw [List.countP_eq_length]
        exact hin
      rw [hz, hfull, hlen]
      simp
    have hc2 : out.filter (fun res => !inScope allRaw res) =
        db.filter (fun res => !inScope allRaw res) := by
      rw [← h, List.filter_append]
      have h1 : (db.filter (fun res => !inScope allRaw res)).filter
          (fun res => !inScope allRaw res) =
          db.filter (fun res => !inScope allRaw res) := by
        rw [List.filter_eq_self]
        intro res hres
        simp [hkept res hres]
      have h2 : newR.filter (fun res => !inScope allRaw res) = [] := by
        rw [List.filter_eq_nil_iff]
        intro res hres
        simp [hin res hres]
      rw [h1, h2, List.append_nil]
    refine ⟨hc1, hc2, ?_⟩
    simp only [create_unique_results_after_2000, hr, Option.map_some',
      Option.some.injEq]
    rw [hc2, h]

/-- Witness for C7: the concrete scoped collection after the run over
`[recW]` (starting from a stale in-scope row) holds exactly one
result. -/
theorem c7_results_full_replace_witness :
    ((create_unique_results_after_2000 parse0 [candW] [resW] [recW]).getD
        []).countP (inScope [recW]) = 1 := by
  have hs : (create_unique_results_after_2000 parse0 [candW] [resW]
      [recW]).isSome := by decide
  obtain ⟨out, hout⟩ := Option.isSome_iff_exists.mp hs
  have h1 := (c7_results_full_replace parse0 [candW] [resW] [recW] out hout).1
  rw [hout]
  simp only [Option.getD_some]
  rw [h1]
  decide

/-! ### Pass 2 contest resolution -/

/-- A contest row matches the query re-derived from its own record. -/
theorem matchesContest_self (r : RawResult) (now : Nat) :
    matchesContest (mkContest r now) (contestQueryOf r) = true := by
  have h : ∀ (o : Option String),
      (match o with
        | none => true
        | some v => decide (o = some v)) = true := by
    intro o
    cases o <;> simp
  simp [matchesContest, mkContest, contestQueryOf, h]

/-- Filtering a mapped list filters the underlying list. -/
theorem mapFilterComm {α β : Type} (f : α → β) (p : β → Bool) :
    ∀ l : List α, (l.map f).filter p = (l.filter (fun x => p (f x))).map f := by
  intro l
  induction l with
  | nil => rfl
  | cons a t ih =>
    simp only [List.map_cons, List.filter_cons]
    by_cases h : p (f a) <;> simp [h, ih]

/-- In a list with pairwise distinct contest keys, filtering by the key
of a member keeps exactly that member. -/
theorem filter_key_singleton :
    ∀ (l : List RawResult),
      l.Pairwise (fun a b => contest_key a ≠ contest_key b) →
      ∀ r0 ∈ l,
        l.filter (fun x => decide (contest_key x = contest_key r0)) = [r0] := by
  intro l
  induction l with
  | nil => intro _ r0 h; simp at h
  | cons a t ih =>
    intro hp r0 hr0
    obtain ⟨ha, hpt⟩ := List.pairwise_cons.mp hp
    rcases List.mem_cons.mp hr0 with heq | hmem
    · subst heq
      have ht : t.filter (fun x => decide (contest_key x = contest_key r0)) =
          [] := by
        rw [List.filter_eq_nil_iff]
        intro x hx
        simp only [decide_eq_true_eq]
        intro hcon
        exact ha x hx hcon.symm
      simp [List.filter_cons, ht]
    · have hne : ¬ (contest_key a = contest_key r0) := ha r0 hmem
      simp only [List.filter_cons, decide_eq_true_eq, if_neg hne]
      exact ih hpt r0 hmem

/-- In a list with pairwise distinct contest keys, searching by the key
of a member finds exactly that member. -/
theorem find_key_eq :
    ∀ (l : List RawResult),
      l.Pairwise (fun a b => contest_key a ≠ contest_key b) →
      ∀ r0 ∈ l,
        l.find? (fun x => decide (contest_key x = contest_key r0)) = some r0 := by
  intro l
  induction l with
  | nil => intro _ r0 h; simp at h
  | cons a t ih =>
    intro hp r0 hr0
    obtain ⟨ha, hpt⟩ := List.pairwise_cons.mp hp
    rcases List.mem_cons.mp hr0 with heq | hmem
    · subst heq
      simp [List.find?_cons]
    · have hne : ¬ (contest_key a = contest_key r0) := ha r0 hmem
      rw [List.find?_cons_of_neg _ (by simpa using hne)]
      exact ih hpt r0 hmem

/-- Under the data-consistency hypotheses, the field-set lookup of
Pass 2 against the Pass 1 collection returns exactly the contest Pass 1
created for the record's corrected key. -/
theorem getUnique_contest (allRaw : List RawResult) (now : Nat)
    (H1 : ∀ r ∈ get_raw_results_after_2000 allRaw,
      ∀ r2 ∈ get_raw_results_after_2000 allRaw,
        contest_key r = contest_key r2 → contestQueryOf r = contestQueryOf r2)
    (H2 : ∀ r ∈ get_raw_results_after_2000 allRaw,
      ∀ r2 ∈ get_raw_results_after_2000 allRaw,
        matchesContest (mkContest r2 now) (contestQueryOf r) = true →
          contest_key r2 = contest_key r)
    (r : RawResult) (hr : r ∈ get_raw_results_after_2000 allRaw) :
    getUnique (fun c => matchesContest c (contestQueryOf r))
        ((firstOccurrences (get_raw_results_after_2000 allRaw)).map
          (fun x => mkContest x now)) =
      pass1ContestFor allRaw now (contest_key r) := by
  have hcov := firstOccAux_covers (get_raw_results_after_2000 allRaw) [] r hr
  rcases hcov with hseen | ⟨r0, hr0, hk0⟩
  · simp at hseen
  have hsub : ∀ x ∈ firstOccurrences (get_raw_results_after_2000 allRaw),
      x ∈ get_raw_results_after_2000 allRaw := by
    intro x hx
    exact (firstOccAux_sublist (get_raw_results_after_2000 allRaw) []).subset hx
  have hpair := firstOccAux_pairwise (get_raw_results_after_2000 allRaw) []
  have hcong :
      (firstOccurrences (get_raw_results_after_2000 allRaw)).filter
        (fun x => matchesContest (mkContest x now) (contestQueryOf r)) =
      (firstOccurrences (get_raw_results_after_2000 allRaw)).filter
        (fun x => decide (contest_key x = contest_key r)) := by
    apply List.filter_congr
    intro x hx
    have hxs := hsub x hx
    by_cases hkey : contest_key x = contest_key r
    · have hq := H1 x hxs r hr hkey
      rw [← hq, matchesContest_self x now]
      exact (decide_eq_true hkey).symm
    · rcases Bool.eq_false_or_eq_true
          (matchesContest (mkContest x now) (contestQueryOf r)) with hT | hF
      · exact absurd (H2 r hr x hxs hT) hkey
      · rw [hF, decide_eq_false hkey]
  have hfind := find_key_eq
    (firstOccurrences (get_raw_results_after_2000 allRaw)) hpair r0 hr0
  rw [hk0] at hfind
  have hfilter := filter_key_singleton
    (firstOccurrences (get_raw_results_after_2000 allRaw)) hpair r0 hr0
  rw [hk0] at hfilter
  simp only [getUnique, mapFilterComm, hcong, pass1ContestFor]
  rw [hfilter, hfind]
  simp

/-- A successful association-list lookup exposes its entry. -/
theorem lookup_mem {β : Type} :
    ∀ (ps : List (String × β)) (k : String) (v : β),
      ps.lookup k = some v → (k, v) ∈ ps := by
  intro ps
  induction ps with
  | nil => intro k v h; simp [List.lookup] at h
  | cons p t ih =>
    intro k v h
    obtain ⟨a, b⟩ := p
    simp only [List.lookup] at h
    rcases Bool.eq_false_or_eq_true (k == a) with hT | hF
    · rw [hT] at h
      simp only [Option.some.injEq] at h
      have hk : k = a := eq_of_beq hT
      subst hk
      subst h
      exact List.mem_cons_self _ _
    · rw [hF] at h
      exact List.mem_cons_of_mem _ (ih k v h)

/-- One step of contest resolution: on either the cache path or the
field-query path, the resolved contest is the Pass 1 row for the
record's corrected key, and the cache invariant is preserved. -/
theorem cached_get_contest_sound (allRaw : List RawResult) (now : Nat)
    (H1 : ∀ r ∈ get_raw_results_after_2000 allRaw,
      ∀ r2 ∈ get_raw_results_after_2000 allRaw,
        contest_key r = contest_key r2 → contestQueryOf r = contestQueryOf r2)
    (H2 : ∀ r ∈ get_raw_results_after_2000 allRaw,
      ∀ r2 ∈ get_raw_results_after_2000 allRaw,
        matchesContest (mkContest r2 now) (contestQueryOf r) = true →
          contest_key r2 = contest_key r)
    (H3 : ∀ r ∈ get_raw_results_after_2000 allRaw,
      ∀ r2 ∈ get_raw_results_after_2000 allRaw,
        cacheKey r.election_id r.contest_slug =
          cacheKey r2.election_id r2.contest_slug →
        contest_key r = contest_key r2)
    (r : RawResult) (hr : r ∈ get_raw_results_after_2000 allRaw)
    (cache : List (String × Contest)) (hinv : contestCacheOk allRaw now cache)
    (ct : Contest) (cache2 : List (String × Contest))
    (h : cached_get_contest r cache
        ((firstOccurrences (get_raw_results_after_2000 allRaw)).map
          (fun x => mkContest x now)) = some (ct, cache2)) :
    some ct = pass1ContestFor allRaw now (contest_key r) ∧
    contestCacheOk allRaw now cache2 := by
  simp only [cached_get_contest] at h
  cases hl : cache.lookup (cacheKey r.election_id r.contest_slug) with
  | some c =>
    rw [hl] at h
    simp only [Option.some.injEq, Prod.mk.injEq] at h
    obtain ⟨hct, hcache⟩ := h
    obtain ⟨r0, hr0, hkey, hp⟩ :=
      hinv _ (lookup_mem cache _ c hl)
    have hkk : contest_key r0 = contest_key r :=
      H3 r0 hr0 r hr hkey.symm
    subst hct
    subst hcache
    exact ⟨by rw [← hkk]; exact hp, hinv⟩
  | none =>
    rw [hl] at h
    have hgu := getUnique_contest allRaw now H1 H2 r hr
    cases hg : getUnique
        (fun c => matchesContest c (contestQueryOf r))
        ((firstOccurrences (get_raw_results_after_2000 allRaw)).map
          (fun x => mkContest x now)) with
    | none => rw [hg] at h; simp at h
    | some c2 =>
      rw [hg] at h
      simp only [Option.some.injEq, Prod.mk.injEq] at h
      obtain ⟨hct, hcache⟩ := h
      rw [hg] at hgu
      subst hct
      refine ⟨hgu, ?_⟩
      rw [← hcache]
      intro e he
      rcases List.mem_cons.mp he with heq | hmem
      · subst heq
        exact ⟨r, hr, rfl, hgu⟩
      · exact hinv e hmem

/-- The loop of Pass 2: every buffered candidate's contest is the
Pass 1 row for some filtered record's corrected contest key — the
record the candidate was built from. -/
theorem candidatesGo_sound (parse : String → HName)
    (allRaw : List RawResult) (now : Nat)
    (H1 : ∀ r ∈ get_raw_results_after_2000 allRaw,
      ∀ r2 ∈ get_raw_results_after_2000 allRaw,
        contest_key r = contest_key r2 → contestQueryOf r = contestQueryOf r2)
    (H2 : ∀ r ∈ get_raw_results_after_2000 allRaw,
      ∀ r2 ∈ get_raw_results_after_2000 allRaw,
        matchesContest (mkContest r2 now) (contestQueryOf r) = true →
          contest_key r2 = contest_key r)
    (H3 : ∀ r ∈ get_raw_results_after_2000 allRaw,
      ∀ r2 ∈ get_raw_results_after_2000 allRaw,
        cacheKey r.election_id r.contest_slug =
          cacheKey r2.election_id r2.contest_slug →
        contest_key r = contest_key r2) :
    ∀ (l : List RawResult) (cache : List (String × Contest))
      (seen : List (String × String)) (cands : List Candidate),
      (∀ x ∈ l, x ∈ get_raw_results_after_2000 allRaw) →
      contestCacheOk allRaw now cache →
      candidatesGo parse
          ((firstOccurrences (get_raw_results_after_2000 allRaw)).map
            (fun x => mkContest x now)) l cache seen = some cands →
      ∀ c ∈ cands, ∃ r ∈ get_raw_results_after_2000 allRaw, ∃ fields,
        get_candidate_fields parse r = some fields ∧
        some c.contest = pass1ContestFor allRaw now (contest_key r) ∧
        c = mkCandidate fields c.contest := by
  intro l
  induction l with
  | nil =>
    intro cache seen cands hsub hinv h
    simp only [candidatesGo, Option.some.injEq] at h
    subst h
    intro c hc
    simp at hc
  | cons rr rest ih =>
    intro cache seen cands hsub hinv h
    simp only [candidatesGo] at h
    by_cases hseen : (rr.election_id, rr.candidate_slug) ∈ seen
    · rw [if_pos hseen] at h
      exact ih cache seen cands
        (fun x hx => hsub x (List.mem_cons_of_mem _ hx)) hinv h
    · rw [if_neg hseen] at h
      cases hf : get_candidate_fields parse rr with
      | none => rw [hf] at h; simp at h
      | some fields =>
        rw [hf] at h
        simp only [] at h
        cases hcg : cached_get_contest rr cache
            ((firstOccurrences (get_raw_results_after_2000 allRaw)).map
              (fun x => mkContest x now)) with
        | none => rw [hcg] at h; simp at h
        | some pr =>
          rw [hcg] at h
          obtain ⟨contest, cache1⟩ := pr
          simp only [] at h
          cases hrest : candidatesGo parse
              ((firstOccurrences (get_raw_results_after_2000 allRaw)).map
                (fun x => mkContest x now)) rest cache1
              ((rr.election_id, rr.candidate_slug) :: seen) with
          | none => rw [hrest] at h; simp at h
          | some cs =>
            rw [hrest] at h
            simp only [Option.map_some', Option.some.injEq] at h
            subst h
            have hrr : rr ∈ get_raw_results_after_2000 allRaw :=
              hsub rr (List.mem_cons_self rr rest)
            obtain ⟨hpass1, hinv1⟩ := cached_get_contest_sound allRaw now
              H1 H2 H3 rr hrr cache hinv contest cache1 hcg
            intro c hc
            rcases List.mem_cons.mp hc with heq | hmem
            · refine ⟨rr, hrr, fields, hf, ?_, ?_⟩
              · rw [heq]
                exact hpass1
              · rw [heq]
                rfl
            · exact ih cache1 _ cs
                (fun x hx => hsub x (List.mem_cons_of_mem _ hx)) hinv1
                hrest c hmem

/-- C2: when Pass 2 completes against the contest collection Pass 1
wrote, every created candidate's contest — resolved through the per-run
cache keyed by election id and raw contest slug, falling back to the
field-set lookup minus the source field — is the Contest row Pass 1
created for its record's (election id, corrected contest slug) key.
The hypotheses are the data-consistency conditions under which the two
resolution schemes can agree at all: records sharing a corrected key
re-derive the same field set minus source (otherwise the field lookup
cannot find a unique row), a Pass 1 row matches a record's field query
only when their corrected keys agree (the field set determines the
key), and the string cache key determines the corrected key (the cache
is keyed by the raw slug while Pass 1 keys by the corrected slug). -/
theorem c2_candidate_contest_refinement (parse : String → HName)
    (allRaw : List RawResult) (now : Nat) (cands : List Candidate)
    (H1 : ∀ r ∈ get_raw_results_after_2000 allRaw,
      ∀ r2 ∈ get_raw_results_after_2000 allRaw,
        contest_key r = contest_key r2 → contestQueryOf r = contestQueryOf r2)
    (H2 : ∀ r ∈ get_raw_results_after_2000 allRaw,
      ∀ r2 ∈ get_raw_results_after_2000 allRaw,
        matchesContest (mkContest r2 now) (contestQueryOf r) = true →
          contest_key r2 = contest_key r)
    (H3 : ∀ r ∈ get_raw_results_after_2000 allRaw,
      ∀ r2 ∈ get_raw_results_after_2000 allRaw,
        cacheKey r.election_id r.contest_slug =
          cacheKey r2.election_id r2.contest_slug →
        contest_key r = contest_key r2)
    (h : create_unique_candidates_after_2000 parse
        (create_unique_contests_after_2000 allRaw now) allRaw = some cands) :
    ∀ c ∈ cands, ∃ r ∈ get_raw_results_after_2000 allRaw, ∃ fields,
      get_candidate_fields parse r = some fields ∧
      some c.contest = pass1ContestFor allRaw now (contest_key r) ∧
      c = mkCandidate fields c.contest := by
  have hdb : create_unique_contests_after_2000 allRaw now =
      (firstOccurrences (get_raw_results_after_2000 allRaw)).map
        (fun x => mkContest x now) := contestsGo_eq_map now _ []
  simp only [create_unique_candidates_after_2000] at h
  rw [hdb] at h
  exact candidatesGo_sound parse allRaw now H1 H2 H3
    (get_raw_results_after_2000 allRaw) [] [] cands (fun x hx => hx)
    (fun e he => absurd he (List.not_mem_nil e)) h

/-- Witness for C2 on the concrete stream `[recP]` (whose slug carries
the presidential district defect): the single created candidate's
contest is the Pass 1 row for the corrected key. -/
theorem c2_candidate_contest_refinement_witness :
    ∃ r ∈ get_raw_results_after_2000 [recP], ∃ fields,
      get_candidate_fields parse0 r = some fields ∧
      some candP.contest = pass1ContestFor [recP] 7 (contest_key r) ∧
      candP = mkCandidate fields candP.contest :=
  c2_candidate_contest_refinement parse0 [recP] 7 [candP]
    (by decide) (by decide) (by decide) (by decide) candP
    (List.mem_singleton.mpr rfl)

end MDXform
